import Mathlib

/-!
Verification development for the scene-generator application (`app.py`).

The definitions below are a shallow embedding of the program's pure core:
keyword tables, prompt-driven position inference, action extraction, sprite
scaling and flipping, bottom-center pasting, and z-ordered alpha compositing.
Python machine-level details are modelled as follows: Python `int` is `Int`
(arbitrary precision in both), Python floor division `//` is `Int.fdiv`,
Python `int(...)` applied to a real value is truncation toward zero on `ℚ`,
strings are compared by the same substring test the source uses, and code
paths that would raise an exception return `none`.
-/

namespace SceneGen

/-- Python substring test `needle in hay`, on explicit character lists. -/
def containsSub (needle hay : List Char) : Bool :=
  hay.tails.any (fun t => needle.isPrefixOf t)

/-- Python `str.lower()` composed with viewing the string as its characters. -/
def lowerStr (s : String) : List Char :=
  s.data.map Char.toLower

/-- The fixed, ordered position-keyword table from `app.py` (`POSITION_KEYWORDS`). -/
def POSITION_KEYWORDS : List String :=
  ["top-left", "top-right", "bottom-left", "bottom-right",
   "left", "right", "top", "bottom", "center", "middle"]

/-- The fixed, ordered action-keyword table from `app.py` (`ACTION_KEYWORDS`). -/
def ACTION_KEYWORDS : List String :=
  ["walking", "running", "sitting", "standing", "waving", "talking",
   "reading", "pointing", "dancing", "jumping", "holding", "looking"]

/-- The fixed 40-pixel padding used by `infer_position_from_prompt`. -/
def pad : Int := 40

/-- The `spots` dictionary built inside `infer_position_from_prompt`:
an association of each position keyword with its anchor point.
Python `W // 2` and `H // 2` are floor division, hence `Int.fdiv`. -/
def spots (W H : Int) : List (String × (Int × Int)) :=
  [("top-left", (pad, pad)),
   ("top-right", (W - pad, pad)),
   ("bottom-left", (pad, H - pad)),
   ("bottom-right", (W - pad, H - pad)),
   ("left", (pad, Int.fdiv H 2)),
   ("right", (W - pad, Int.fdiv H 2)),
   ("top", (Int.fdiv W 2, pad)),
   ("bottom", (Int.fdiv W 2, H - pad)),
   ("center", (Int.fdiv W 2, Int.fdiv H 2)),
   ("middle", (Int.fdiv W 2, Int.fdiv H 2))]

/-- The fallback x-coordinate `pad + (index + 1) * (W - 2 * pad) // (total + 1)`
computed by `infer_position_from_prompt` when no keyword matches. -/
def fallback_x (W index total : Int) : Int :=
  pad + Int.fdiv ((index + 1) * (W - 2 * pad)) (total + 1)

/-- `infer_position_from_prompt` from `app.py`: lower-case the prompt, return the
anchor of the first position keyword occurring as a substring, and otherwise
space characters along the bottom edge.  The Python code would raise
`ZeroDivisionError` when `total + 1 = 0`; that path is modelled as `none`. -/
def infer_position_from_prompt (prompt : String) (W H index total : Int) :
    Option (Int × Int) :=
  let p := lowerStr prompt
  match POSITION_KEYWORDS.find? (fun k => containsSub k.data p) with
  | some k => (spots W H).lookup k
  | none =>
      if total + 1 = 0 then none
      else some (fallback_x W index total, H - pad)

/-- `extract_actions` from `app.py`: the action keywords that occur as substrings
of the lower-cased prompt, in table order. -/
def extract_actions (prompt : String) : List String :=
  ACTION_KEYWORDS.filter (fun v => containsSub v.data (lowerStr prompt))

/-! ### Generic helper lemmas -/

/-- `List.find?` returns the head of the filtered list. -/
theorem find?_eq_head?_filter {α : Type} (p : α → Bool) (l : List α) :
    l.find? p = (l.filter p).head? := by
  induction l with
  | nil => rfl
  | cons a t ih =>
      by_cases h : p a
      · rw [List.find?_cons_of_pos _ h, List.filter_cons_of_pos h]
        rfl
      · rw [List.find?_cons_of_neg _ h, List.filter_cons_of_neg h, ih]

/-- Every position keyword is a key of the `spots` table. -/
theorem lookup_spots_isSome (W H : Int) {k : String} (hk : k ∈ POSITION_KEYWORDS) :
    ((spots W H).lookup k).isSome = true := by
  fin_cases hk <;> rfl

/-! ### C1: a uniquely matching position keyword yields its fixed anchor -/

/-- C1. If the lower-cased prompt contains exactly one of the ten position
keywords (the filtered keyword table is `[k]`), then
`infer_position_from_prompt` returns exactly the anchor stored for `k` in the
`spots` table, independently of `index` and `total`. -/
theorem position_keyword_anchor (prompt : String) (W H : Int) (k : String)
    (hk : POSITION_KEYWORDS.filter
        (fun s => containsSub s.data (lowerStr prompt)) = [k]) :
    ∀ index total index2 total2 : Int,
      infer_position_from_prompt prompt W H index total = (spots W H).lookup k ∧
      infer_position_from_prompt prompt W H index total =
        infer_position_from_prompt prompt W H index2 total2 := by
  have hfind : POSITION_KEYWORDS.find?
      (fun s => containsSub s.data (lowerStr prompt)) = some k := by
    rw [find?_eq_head?_filter, hk]; rfl
  intro index total index2 total2
  constructor
  · simp [infer_position_from_prompt, hfind]
  · simp [infer_position_from_prompt, hfind]

/-- C1 witness: for canvas 1280×720 and the prompt
"sitting at a table on the right", both of two characters (indices 0 and 1,
total 2) receive the anchor (1240, 360). -/
theorem position_keyword_anchor_witness :
    infer_position_from_prompt ("sitting at a table on the right") 1280 720 0 2
        = some (1240, 360) ∧
    infer_position_from_prompt ("sitting at a table on the right") 1280 720 1 2
        = some (1240, 360) := by
  have h := position_keyword_anchor ("sitting at a table on the right")
      1280 720 ("right") (by decide)
  have h0 := (h 0 2 0 2).1
  have h1 := (h 1 2 1 2).1
  constructor
  · rw [h0]; rfl
  · rw [h1]; rfl

/-! ### C2: priority order, "top-left" beats "top" and "left" -/

/-- C2. The keywords are tested in the fixed priority order and the first
substring match wins: any prompt whose lower-casing contains "top-left"
gets the top-left anchor `(pad, pad)`, and (for any canvas larger than the
degenerate 80/81-pixel sizes, in particular every canvas the UI allows)
that value is neither the "top" anchor nor the "left" anchor. -/
theorem top_left_priority (prompt : String) (W H index total : Int)
    (h : containsSub ("top-left").data (lowerStr prompt) = true) :
    infer_position_from_prompt prompt W H index total = some (pad, pad) ∧
    (81 < W →
      infer_position_from_prompt prompt W H index total ≠ (spots W H).lookup ("top")) ∧
    (81 < H →
      infer_position_from_prompt prompt W H index total ≠ (spots W H).lookup ("left")) := by
  have hfind : POSITION_KEYWORDS.find?
      (fun k => containsSub k.data (lowerStr prompt)) = some ("top-left") := by
    have heq : POSITION_KEYWORDS = ("top-left") ::
        ["top-right", "bottom-left", "bottom-right", "left", "right",
         "top", "bottom", "center", "middle"] := rfl
    rw [heq]
    exact List.find?_cons_of_pos _ h
  have hmain : infer_position_from_prompt prompt W H index total = some (pad, pad) := by
    simp [infer_position_from_prompt, hfind]
    rfl
  refine ⟨hmain, ?_, ?_⟩
  · intro hW
    have htop : (spots W H).lookup ("top") = some (Int.fdiv W 2, pad) := rfl
    rw [hmain, htop]
    intro hcontra
    have hfd : Int.fdiv W 2 = W / 2 := Int.fdiv_eq_ediv W (by norm_num)
    have h41 : (41 : Int) ≤ W / 2 :=
      (Int.le_ediv_iff_mul_le (by norm_num)).2 (by omega)
    have : pad = Int.fdiv W 2 := by
      have := Prod.mk.injEq pad pad (Int.fdiv W 2) pad
      simpa [pad] using congrArg (fun o => o.map Prod.fst) hcontra
    rw [hfd] at this
    simp [pad] at this
    omega
  · intro hH
    have hleft : (spots W H).lookup ("left") = some (pad, Int.fdiv H 2) := rfl
    rw [hmain, hleft]
    intro hcontra
    have hfd : Int.fdiv H 2 = H / 2 := Int.fdiv_eq_ediv H (by norm_num)
    have h41 : (41 : Int) ≤ H / 2 :=
      (Int.le_ediv_iff_mul_le (by norm_num)).2 (by omega)
    have : pad = Int.fdiv H 2 := by
      simpa [pad] using congrArg (fun o => o.map Prod.snd) hcontra
    rw [hfd] at this
    simp [pad] at this
    omega

/-- C2 witness: a prompt containing "Top-Left" (case-insensitively) at canvas
480×270 gets anchor (40, 40), which differs from the "top" and "left" anchors. -/
theorem top_left_priority_witness :
    infer_position_from_prompt ("put them in the Top-Left corner") 480 270 0 3
        = some (40, 40) ∧
    infer_position_from_prompt ("put them in the Top-Left corner") 480 270 0 3
        ≠ (spots 480 270).lookup ("top") ∧
    infer_position_from_prompt ("put them in the Top-Left corner") 480 270 0 3
        ≠ (spots 480 270).lookup ("left") := by
  have h := top_left_priority ("put them in the Top-Left corner") 480 270 0 3 (by decide)
  exact ⟨h.1, h.2.1 (by norm_num), h.2.2 (by norm_num)⟩

/-! ### C9: the fallback divisor `total + 1` never divides by zero for `total ≥ 0` -/

/-- C9. For every prompt and every `total ≥ 0` (including `total = 0`),
`infer_position_from_prompt` returns a value: the fallback divisor is
`total + 1 ≥ 1`, so the `ZeroDivisionError` path is unreachable. -/
theorem infer_position_no_div_zero (prompt : String) (W H index total : Int)
    (h : 0 ≤ total) :
    (infer_position_from_prompt prompt W H index total).isSome = true := by
  unfold infer_position_from_prompt
  cases hf : POSITION_KEYWORDS.find? (fun k => containsSub k.data (lowerStr prompt)) with
  | some k =>
      simp only [hf]
      exact lookup_spots_isSome W H (List.mem_of_find?_eq_some hf)
  | none =>
      simp only [hf]
      rw [if_neg (by omega)]
      rfl

/-- C9 witness: with no characters present (`total = 0`) and an empty prompt the
function still returns a value. -/
theorem infer_position_no_div_zero_witness :
    (infer_position_from_prompt ("") 1280 720 0 0).isSome = true :=
  infer_position_no_div_zero ("") 1280 720 0 0 (by norm_num)

/-! ### C3: fallback spacing along the bottom edge -/

/-- C3 counterexample: the claimed strict increase of the fallback
x-coordinates fails once there are more characters than interior pixels.
At canvas width 480 (a width the UI allows) with 401 characters, the
characters at indices 200 and 201 receive the same anchor (240, 680):
the x-coordinates are not strictly increasing. -/
theorem fallback_not_strictly_increasing :
    infer_position_from_prompt ("") 480 720 200 401 = some (240, 680) ∧
    infer_position_from_prompt ("") 480 720 201 401 = some (240, 680) ∧
    (200 : Int) < 201 := by
  refine ⟨?_, ?_, by norm_num⟩ <;> rfl

/-- Helper: with a positive divisor, `Int.fdiv` is `Int.ediv` (the `/` of `ℤ`). -/
theorem fallback_x_eq_ediv (W index total : Int) (h : 0 ≤ total) :
    fallback_x W index total = pad + (index + 1) * (W - 2 * pad) / (total + 1) := by
  unfold fallback_x
  rw [Int.fdiv_eq_ediv _ (by omega)]

/-- C3 amended. For a prompt matching no position keyword the function returns
`(fallback_x W index total, H - pad)` (floor division, every y equals
`H - pad`); and whenever the interior width `W - 2 * pad` is at least
`total + 1`, the x-coordinates are strictly increasing in the index, lie
strictly between `pad` and `W - pad`, and consecutive coordinates differ by
either `⌊d / (total+1)⌋` or `⌊d / (total+1)⌋ + 1` where `d = W - 2 * pad`
(even spacing up to the 1-pixel rounding of floor division). -/
theorem fallback_spacing (prompt : String) (W H : Int)
    (hnone : ∀ k ∈ POSITION_KEYWORDS,
        containsSub k.data (lowerStr prompt) = false) :
    (∀ index total : Int, 0 ≤ total →
        infer_position_from_prompt prompt W H index total
          = some (fallback_x W index total, H - pad)) ∧
    (∀ total i j : Int, 0 ≤ i → i < j → j < total →
        total + 1 ≤ W - 2 * pad →
        fallback_x W i total < fallback_x W j total) ∧
    (∀ total i : Int, 0 ≤ i → i < total →
        total + 1 ≤ W - 2 * pad →
        pad < fallback_x W i total ∧ fallback_x W i total < W - pad) ∧
    (∀ total i : Int, 0 ≤ total →
        total + 1 ≤ W - 2 * pad →
        fallback_x W (i + 1) total - fallback_x W i total
            = (W - 2 * pad) / (total + 1) ∨
        fallback_x W (i + 1) total - fallback_x W i total
            = (W - 2 * pad) / (total + 1) + 1) := by
  have hfind : POSITION_KEYWORDS.find?
      (fun k => containsSub k.data (lowerStr prompt)) = none := by
    rw [List.find?_eq_none]
    intro k hk
    simp [hnone k hk]
  refine ⟨?_, ?_, ?_, ?_⟩
  · intro index total htot
    simp [infer_position_from_prompt, hfind]
    omega
  · intro total i j hi hij hjt hroom
    have htot : 0 ≤ total := by omega
    rw [fallback_x_eq_ediv _ _ _ htot, fallback_x_eq_ediv _ _ _ htot]
    have hm : (0 : Int) < total + 1 := by omega
    have hd : total + 1 ≤ W - 2 * pad := hroom
    have hstep : (i + 1) * (W - 2 * pad) + (total + 1) ≤ (j + 1) * (W - 2 * pad) := by
      have : (i + 2) * (W - 2 * pad) ≤ (j + 1) * (W - 2 * pad) := by
        apply mul_le_mul_of_nonneg_right (by omega) (by omega)
      nlinarith
    have h1 : ((i + 1) * (W - 2 * pad) + (total + 1)) / (total + 1)
        = (i + 1) * (W - 2 * pad) / (total + 1) + 1 := by
      have := Int.add_mul_ediv_right ((i + 1) * (W - 2 * pad)) 1 (c := total + 1) (by omega)
      simpa using this
    have h2 : ((i + 1) * (W - 2 * pad) + (total + 1)) / (total + 1)
        ≤ (j + 1) * (W - 2 * pad) / (total + 1) :=
      Int.ediv_le_ediv hm hstep
    omega
  · intro total i hi hit hroom
    have htot : 0 ≤ total := by omega
    rw [fallback_x_eq_ediv _ _ _ htot]
    have hm : (0 : Int) < total + 1 := by omega
    constructor
    · have h1 : (1 : Int) ≤ (i + 1) * (W - 2 * pad) / (total + 1) := by
        rw [Int.le_ediv_iff_mul_le hm]
        nlinarith
      omega
    · have h2 : (i + 1) * (W - 2 * pad) / (total + 1) < W - 2 * pad := by
        rw [Int.ediv_lt_iff_lt_mul hm]
        nlinarith
      omega
  · intro total i htot hroom
    have hm : (0 : Int) < total + 1 := by omega
    rw [fallback_x_eq_ediv _ _ _ htot, fallback_x_eq_ediv _ _ _ htot]
    set d : Int := W - 2 * pad with hdset
    set m : Int := total + 1 with hmset
    set a : Int := (i + 1) * d with haset
    have hsplit : d = m * (d / m) + d % m := (Int.ediv_add_emod d m).symm
    have hrnn : 0 ≤ d % m := Int.emod_nonneg d (by omega)
    have hrlt : d % m < m := Int.emod_lt_of_pos d hm
    have hnum : (i + 1 + 1) * d = a + d % m + (d / m) * m := by
      have : (i + 1 + 1) * d = a + d := by ring
      rw [this]
      nlinarith [hsplit]
    have hup : (a + d % m) / m ≤ a / m + 1 := by
      have hle : a + d % m ≤ a + 1 * m := by omega
      have := Int.ediv_le_ediv hm hle
      rwa [Int.add_mul_ediv_right _ _ (show m ≠ 0 by omega)] at this
    have hlo : a / m ≤ (a + d % m) / m :=
      Int.ediv_le_ediv hm (by omega)
    have hmain : (i + 1 + 1) * d / m = (a + d % m) / m + d / m := by
      rw [hnum, Int.add_mul_ediv_right _ _ (show m ≠ 0 by omega)]
    rw [hmain]
    omega

/-- C3 amended, witness: canvas 1280×720 with 2 characters and a keyword-free
prompt: both anchors computed, strictly increasing x, inside the padded
interior, and the gap matches the even spacing. -/
theorem fallback_spacing_witness :
    infer_position_from_prompt ("hello there") 1280 720 0 2
        = some (fallback_x 1280 0 2, 680) ∧
    fallback_x 1280 0 2 < fallback_x 1280 1 2 ∧
    (40 < fallback_x 1280 0 2 ∧ fallback_x 1280 0 2 < 1240) ∧
    (fallback_x 1280 1 2 - fallback_x 1280 0 2 = 1200 / 3 ∨
      fallback_x 1280 1 2 - fallback_x 1280 0 2 = 1200 / 3 + 1) := by
  have h := fallback_spacing ("hello there") 1280 720 (by decide)
  refine ⟨?_, ?_, ?_, ?_⟩
  · exact h.1 0 2 (by norm_num)
  · exact h.2.1 2 0 1 (by norm_num) (by norm_num) (by norm_num) (by norm_num [pad])
  · exact h.2.2.1 2 0 (by norm_num) (by norm_num) (by norm_num [pad])
  · exact h.2.2.2 2 0 (by norm_num) (by norm_num [pad])

/-! ### C4: action extraction -/

/-- C4. `extract_actions` returns exactly the action keywords occurring as
case-insensitive substrings of the prompt, as a sublist of the fixed table
(hence in table order, not prompt order); the function is pure, so it is
trivially deterministic and its output depends only on the prompt. -/
theorem extract_actions_spec (prompt : String) :
    (∀ a : String, a ∈ extract_actions prompt ↔
        (a ∈ ACTION_KEYWORDS ∧ containsSub a.data (lowerStr prompt) = true)) ∧
    (extract_actions prompt).Sublist ACTION_KEYWORDS ∧
    extract_actions prompt
      = ACTION_KEYWORDS.filter (fun v => containsSub v.data (lowerStr prompt)) := by
  refine ⟨?_, ?_, rfl⟩
  · intro a
    simp [extract_actions, List.mem_filter]
  · exact List.filter_sublist _

/-! ### Image model: pixels, sprites, truncation -/

/-- A pixel with rational premultiplied color channels and alpha in `[0, 1]`.
This is the exact-arithmetic model of the 8-bit RGBA pixels of the library. -/
structure RGBA where
  r : ℚ
  g : ℚ
  b : ℚ
  a : ℚ
deriving DecidableEq

/-- An image: dimensions plus a pixel function. -/
structure Sprite where
  width : Nat
  height : Nat
  px : Nat → Nat → RGBA

/-- Python `int(...)` on a real value: truncation toward zero. -/
def pyTrunc (q : ℚ) : Int :=
  if 0 ≤ q then ⌊q⌋ else ⌈q⌉

/-- `scale_image` from `app.py`: each target dimension is
`max 1 (int(dim * scale))`; the resampled pixel content is produced by the
library's LANCZOS filter, modelled by the external function `resample`. -/
def scale_image (resample : Sprite → Nat → Nat → Nat → Nat → RGBA)
    (img : Sprite) (scale : ℚ) : Sprite where
  width := max 1 (pyTrunc ((img.width : ℚ) * scale)).toNat
  height := max 1 (pyTrunc ((img.height : ℚ) * scale)).toNat
  px := resample img (max 1 (pyTrunc ((img.width : ℚ) * scale)).toNat)
    (max 1 (pyTrunc ((img.height : ℚ) * scale)).toNat)

/-- The top-left corner `(int(x_center - ow / 2), int(y_bottom - oh))` computed
by `paste_rgba` for an overlay of size `ow × oh`. -/
def paste_origin (x_center y_bottom : Int) (ow oh : Nat) : Int × Int :=
  (pyTrunc ((x_center : ℚ) - (ow : ℚ) / 2), y_bottom - (oh : Int))

/-! ### C5: bottom-center anchoring of `paste_rgba` -/

/-- Truncated halving of an integer, in both signs. -/
theorem pyTrunc_half (q : Int) :
    pyTrunc ((q : ℚ) / 2) = if 0 ≤ q then q / 2 else -(-q / 2) := by
  unfold pyTrunc
  have hcast : ((q : ℚ) / 2) = (q : ℚ) / ((2 : ℕ) : ℚ) := by norm_num
  by_cases h : 0 ≤ q
  · rw [if_pos, if_pos h]
    · rw [hcast, Rat.floor_intCast_div_natCast]
      norm_num
    · exact div_nonneg (by exact_mod_cast h) (by norm_num)
  · rw [if_neg, if_neg h]
    · have hfn : ⌊-((q : ℚ) / 2)⌋ = -⌈(q : ℚ) / 2⌉ := Int.floor_neg
      have hneg : (-((q : ℚ) / 2)) = ((-q : Int) : ℚ) / ((2 : ℕ) : ℚ) := by
        push_cast
        ring
      rw [hneg, Rat.floor_intCast_div_natCast] at hfn
      norm_num at hfn ⊢
      omega
    · push_neg at h ⊢
      have : (q : ℚ) < 0 := by exact_mod_cast h
      linarith

/-- C5. The overlay's top-left origin places its bottom edge exactly at
`y_bottom` and its horizontal center at `x_center`: the y-origin is
`y_bottom - oh`; for even widths the x-origin is exactly
`x_center - ow / 2`; and in general the sprite's center
`origin + ow / 2` is within half a pixel of `x_center`
(`|2 * origin_x + ow - 2 * x_center| ≤ 1`, Python `int()` truncation). -/
theorem paste_rgba_bottom_center (x_center y_bottom : Int) (ow oh : Nat) :
    (paste_origin x_center y_bottom ow oh).2 = y_bottom - (oh : Int) ∧
    (ow % 2 = 0 →
      (paste_origin x_center y_bottom ow oh).1 = x_center - ((ow / 2 : Nat) : Int)) ∧
    (2 * (paste_origin x_center y_bottom ow oh).1 - (2 * x_center - (ow : Int))).natAbs
        ≤ 1 := by
  have hq : ((x_center : ℚ) - (ow : ℚ) / 2)
      = ((2 * x_center - (ow : Int) : Int) : ℚ) / 2 := by
    push_cast
    ring
  have hx : (paste_origin x_center y_bottom ow oh).1
      = if 0 ≤ 2 * x_center - (ow : Int)
        then (2 * x_center - (ow : Int)) / 2
        else -(-(2 * x_center - (ow : Int)) / 2) := by
    show pyTrunc _ = _
    rw [hq, pyTrunc_half]
  refine ⟨rfl, ?_, ?_⟩
  · intro hpar
    obtain ⟨t, ht⟩ : ∃ t, ow = 2 * t := ⟨ow / 2, by omega⟩
    subst ht
    rw [hx]
    split <;> omega
  · rw [hx]
    split <;> omega

/-- C5 witness: an overlay of size 30×50 anchored at (100, 200) has origin
(85, 150): bottom at 200, horizontal center at 100. -/
theorem paste_rgba_bottom_center_witness :
    (paste_origin 100 200 30 50).2 = 200 - ((50 : Nat) : Int) ∧
    (paste_origin 100 200 30 50).1 = 100 - ((30 / 2 : Nat) : Int) ∧
    (2 * (paste_origin 100 200 30 50).1 - (2 * 100 - ((30 : Nat) : Int))).natAbs ≤ 1 := by
  have h := paste_rgba_bottom_center 100 200 30 50
  exact ⟨h.1, h.2.1 (by norm_num), h.2.2⟩

/-! ### C7: scaled dimensions -/

/-- C7. For a positive scale the result of `scale_image` has dimensions
`max 1 ⌊dim * scale⌋` (truncation and floor agree on nonnegative values),
so neither dimension can degenerate to zero. -/
theorem scale_image_dims (resample : Sprite → Nat → Nat → Nat → Nat → RGBA)
    (img : Sprite) (s : ℚ) (hs : 0 < s) :
    (scale_image resample img s).width = max 1 (⌊(img.width : ℚ) * s⌋).toNat ∧
    (scale_image resample img s).height = max 1 (⌊(img.height : ℚ) * s⌋).toNat ∧
    1 ≤ (scale_image resample img s).width ∧
    1 ≤ (scale_image resample img s).height := by
  have hw : pyTrunc ((img.width : ℚ) * s) = ⌊(img.width : ℚ) * s⌋ := by
    unfold pyTrunc
    rw [if_pos (mul_nonneg (by positivity) hs.le)]
  have hh : pyTrunc ((img.height : ℚ) * s) = ⌊(img.height : ℚ) * s⌋ := by
    unfold pyTrunc
    rw [if_pos (mul_nonneg (by positivity) hs.le)]
  refine ⟨?_, ?_, Nat.le_max_left _ _, Nat.le_max_left _ _⟩
  · show max 1 (pyTrunc ((img.width : ℚ) * s)).toNat = _
    rw [hw]
  · show max 1 (pyTrunc ((img.height : ℚ) * s)).toNat = _
    rw [hh]

/-- A concrete 100×50 sprite with fully transparent pixels. -/
def sampleSprite : Sprite :=
  ⟨100, 50, fun _ _ => ⟨0, 0, 0, 0⟩⟩

/-- A trivial stand-in for the external LANCZOS resampling filter. -/
def noResample : Sprite → Nat → Nat → Nat → Nat → RGBA :=
  fun _ _ _ _ _ => ⟨0, 0, 0, 0⟩

/-- C7 witness: scaling the 100×50 sprite by 80% yields 80×40. -/
theorem scale_image_dims_witness :
    (scale_image noResample sampleSprite (4 / 5)).width = 80 ∧
    (scale_image noResample sampleSprite (4 / 5)).height = 40 := by
  have h := scale_image_dims noResample sampleSprite (4 / 5) (by norm_num)
  constructor
  · rw [h.1]
    show max 1 (⌊((100 : Nat) : ℚ) * (4 / 5)⌋).toNat = 80
    norm_num
    rfl
  · rw [h.2.1]
    show max 1 (⌊((50 : Nat) : ℚ) * (4 / 5)⌋).toNat = 40
    norm_num
    rfl

/-! ### Compositing model: alpha blending, characters, z-order -/

/-- The alpha-compositing "over" operator on premultiplied pixels, the exact
arithmetic behind `Image.alpha_composite`. -/
def over (top bot : RGBA) : RGBA :=
  ⟨top.r + (1 - top.a) * bot.r,
   top.g + (1 - top.a) * bot.g,
   top.b + (1 - top.a) * bot.b,
   top.a + (1 - top.a) * bot.a⟩

/-- An unbounded pixel plane (the canvas, indexed by integer coordinates). -/
def Canvas : Type :=
  Int → Int → RGBA

/-- The fresh fully transparent canvas `Image.new("RGBA", (W, H), (0, 0, 0, 0))`. -/
def blank : Canvas :=
  fun _ _ => ⟨0, 0, 0, 0⟩

/-- `base.alpha_composite(overlay, (ox, oy))`: inside the overlay's rectangle
the pixel is blended over the base; elsewhere the base is unchanged. -/
def alpha_composite_at (base : Canvas) (ov : Sprite) (ox oy : Int) : Canvas :=
  fun x y =>
    if ox ≤ x ∧ x < ox + (ov.width : Int) ∧ oy ≤ y ∧ y < oy + (ov.height : Int) then
      over (ov.px (x - ox).toNat (y - oy).toNat) (base x y)
    else base x y

/-- The `Character` dataclass from `app.py`. -/
structure Character where
  name : String
  raw_bytes : List Nat
  x : Int
  y : Int
  scale : ℚ
  flip_h : Bool
  actions : List String
  z : Int
deriving DecidableEq

/-- `flip_h_if_needed` from `app.py`: horizontal mirror when requested. -/
def flip_h_if_needed (img : Sprite) (f : Bool) : Sprite :=
  if f then ⟨img.width, img.height, fun i j => img.px (img.width - 1 - i) j⟩ else img

/-- `ensure_rgba` from `app.py`: the model is already 4-channel, so this is the
identity (the source converts only when the mode differs). -/
def ensure_rgba (img : Sprite) : Sprite :=
  img

/-- `Character.as_image` from `app.py`: decode the raw bytes (external image
decoder `decode`), flip, scale, ensure RGBA. -/
def Character.as_image (decode : List Nat → Sprite)
    (resample : Sprite → Nat → Nat → Nat → Nat → RGBA) (ch : Character) : Sprite :=
  ensure_rgba (scale_image resample (flip_h_if_needed (decode ch.raw_bytes) ch.flip_h) ch.scale)

/-- `paste_rgba` from `app.py`: alpha-composite the overlay with its bottom
center at `(x_center, y_bottom)`. -/
def paste_rgba (base : Canvas) (overlay : Sprite) (x_center y_bottom : Int) : Canvas :=
  alpha_composite_at base overlay
    (paste_origin x_center y_bottom overlay.width overlay.height).1
    (paste_origin x_center y_bottom overlay.width overlay.height).2

/-- One iteration of the preview loop: `sprite = ch.as_image()`;
`paste_rgba(composite, sprite, ch.x, ch.y)`. -/
def pasteChar (decode : List Nat → Sprite)
    (resample : Sprite → Nat → Nat → Nat → Nat → RGBA)
    (canvas : Canvas) (ch : Character) : Canvas :=
  paste_rgba canvas (Character.as_image decode resample ch) ch.x ch.y

/-- `sorted(st.session_state.characters, key=lambda c: c.z)`: Python's `sorted`
is a stable sort by the key, modelled by (stable) insertion sort. -/
def sortByZ (chars : List Character) : List Character :=
  List.insertionSort (fun a b => a.z ≤ b.z) chars

/-- The preview compositing of `app.py`: fresh transparent canvas, background
alpha-composited at the origin, then every character in ascending z-order. -/
def composite (decode : List Nat → Sprite)
    (resample : Sprite → Nat → Nat → Nat → Nat → RGBA)
    (bg : Sprite) (chars : List Character) : Canvas :=
  (sortByZ chars).foldl (pasteChar decode resample) (alpha_composite_at blank bg 0 0)

/-- The overlay's pasted origin, as `paste_rgba` computes it from its size. -/
abbrev origin_of (overlay : Sprite) (x_center y_bottom : Int) : Int × Int :=
  paste_origin x_center y_bottom overlay.width overlay.height

/-- The character's sprite covers the plane point `(x, y)` with a fully
on-canvas, fully-opaque pixel. -/
abbrev coversAt (decode : List Nat → Sprite)
    (resample : Sprite → Nat → Nat → Nat → Nat → RGBA)
    (ch : Character) (x y : Int) : Prop :=
  ((origin_of (Character.as_image decode resample ch) ch.x ch.y).1 ≤ x ∧
   x < (origin_of (Character.as_image decode resample ch) ch.x ch.y).1
      + ((Character.as_image decode resample ch).width : Int) ∧
   (origin_of (Character.as_image decode resample ch) ch.x ch.y).2 ≤ y ∧
   y < (origin_of (Character.as_image decode resample ch) ch.x ch.y).2
      + ((Character.as_image decode resample ch).height : Int)) ∧
  ((Character.as_image decode resample ch).px
      (x - (origin_of (Character.as_image decode resample ch) ch.x ch.y).1).toNat
      (y - (origin_of (Character.as_image decode resample ch) ch.x ch.y).2).toNat).a = 1

/-! ### Helper lemmas for C6 -/

/-- Blending a fully opaque pixel ignores what is underneath. -/
theorem over_of_full_alpha (top bot : RGBA) (h : top.a = 1) : over top bot = top := by
  cases top with
  | mk r g b a =>
      simp only [over]
      simp_all

/-- `paste_rgba` is pointwise: its value at a pixel depends on the base canvas
only through that same pixel. -/
theorem paste_rgba_pointwise (b b' : Canvas) (ov : Sprite) (xc yb x y : Int)
    (h : b x y = b' x y) :
    paste_rgba b ov xc yb x y = paste_rgba b' ov xc yb x y := by
  unfold paste_rgba alpha_composite_at
  split <;> rw [h]

/-- A fold of pastes is pointwise in the starting canvas. -/
theorem foldl_paste_pointwise (decode : List Nat → Sprite)
    (resample : Sprite → Nat → Nat → Nat → Nat → RGBA)
    (L : List Character) (b b' : Canvas) (x y : Int) (h : b x y = b' x y) :
    L.foldl (pasteChar decode resample) b x y
      = L.foldl (pasteChar decode resample) b' x y := by
  induction L generalizing b b' with
  | nil => exact h
  | cons ch t ih => exact ih _ _ (paste_rgba_pointwise _ _ _ _ _ _ _ h)

/-- At a point covered by a fully opaque overlay pixel, the paste yields that
pixel, independently of the base canvas. -/
theorem paste_rgba_full_alpha (b : Canvas) (ov : Sprite) (xc yb x y : Int)
    (hin : (origin_of ov xc yb).1 ≤ x ∧
        x < (origin_of ov xc yb).1 + (ov.width : Int) ∧
        (origin_of ov xc yb).2 ≤ y ∧
        y < (origin_of ov xc yb).2 + (ov.height : Int))
    (ha : (ov.px (x - (origin_of ov xc yb).1).toNat
        (y - (origin_of ov xc yb).2).toNat).a = 1) :
    paste_rgba b ov xc yb x y
      = ov.px (x - (origin_of ov xc yb).1).toNat (y - (origin_of ov xc yb).2).toNat := by
  unfold paste_rgba alpha_composite_at
  rw [if_pos hin]
  exact over_of_full_alpha _ _ ha

/-- Inserting into the z-sorted tail commutes with filtering on a z value. -/
theorem filter_z_orderedInsert (a : Character) (l : List Character) (k : Int) :
    (List.orderedInsert (fun c d : Character => c.z ≤ d.z) a l).filter
        (fun c => decide (c.z = k))
      = if a.z = k
        then a :: l.filter (fun c => decide (c.z = k))
        else l.filter (fun c => decide (c.z = k)) := by
  induction l with
  | nil => by_cases h : a.z = k <;> simp [List.orderedInsert, h]
  | cons b t ih =>
      rw [List.orderedInsert]
      by_cases hab : a.z ≤ b.z
      · rw [if_pos hab]
        by_cases h : a.z = k <;> simp [List.filter_cons, h]
      · rw [if_neg hab]
        by_cases hbk : b.z = k
        · have hak : ¬a.z = k := by omega
          simp [List.filter_cons, hbk, hak, ih]
        · simp [List.filter_cons, hbk, ih]

/-- Stability of the z-sort: for every z value, the characters carrying it
appear in the sorted list exactly in their original relative order. -/
theorem sortByZ_filter (chars : List Character) (k : Int) :
    (sortByZ chars).filter (fun c => decide (c.z = k))
      = chars.filter (fun c => decide (c.z = k)) := by
  unfold sortByZ
  induction chars with
  | nil => rfl
  | cons a t ih =>
      rw [List.insertionSort, filter_z_orderedInsert]
      by_cases h : a.z = k
      · rw [if_pos h, ih, List.filter_cons]
        simp [h]
      · rw [if_neg h, ih, List.filter_cons]
        simp [h]

/-- The z-sorted list is ascending in z. -/
theorem sortByZ_sorted (chars : List Character) :
    List.Pairwise (fun a b : Character => a.z ≤ b.z) (sortByZ chars) := by
  haveI : IsTotal Character (fun a b : Character => a.z ≤ b.z) :=
    ⟨fun a b => Int.le_total a.z b.z⟩
  haveI : IsTrans Character (fun a b : Character => a.z ≤ b.z) :=
    ⟨fun _ _ _ hab hbc => le_trans hab hbc⟩
  exact List.sorted_insertionSort _ _

/-! ### C6: deterministic z-ordered compositing with stable ties -/

/-- C6. The draw order of `composite` is the stable ascending-z sort of the
character list: it is sorted by z, ties keep insertion-relative order
(filtering on any z value gives back the original sublist), it is a
permutation of the characters, and the output is the deterministic fold of
pastes in that order; moreover a later-drawn sprite occludes everything
drawn before it: wherever it covers a pixel with full alpha, the composited
value is exactly what compositing from that sprite on yields, with the
background and all earlier sprites ignored. -/
theorem composite_zorder (decode : List Nat → Sprite)
    (resample : Sprite → Nat → Nat → Nat → Nat → RGBA)
    (bg : Sprite) (chars : List Character) :
    List.Pairwise (fun a b : Character => a.z ≤ b.z) (sortByZ chars) ∧
    (∀ k : Int, (sortByZ chars).filter (fun c => decide (c.z = k))
        = chars.filter (fun c => decide (c.z = k))) ∧
    (sortByZ chars).Perm chars ∧
    (∀ pre ch post, ∀ x y : Int,
        sortByZ chars = pre ++ ch :: post →
        coversAt decode resample ch x y →
        composite decode resample bg chars x y
          = (ch :: post).foldl (pasteChar decode resample) blank x y) := by
  refine ⟨sortByZ_sorted chars, fun k => sortByZ_filter chars k,
    List.perm_insertionSort _ _, ?_⟩
  intro pre ch post x y hsplit hcov
  unfold composite
  rw [hsplit, List.foldl_append, List.foldl_cons, List.foldl_cons]
  apply foldl_paste_pointwise
  obtain ⟨hin, ha⟩ := hcov
  have h1 := paste_rgba_full_alpha
    (pre.foldl (pasteChar decode resample) (alpha_composite_at blank bg 0 0))
    (Character.as_image decode resample ch) ch.x ch.y x y hin ha
  have h2 := paste_rgba_full_alpha blank
    (Character.as_image decode resample ch) ch.x ch.y x y hin ha
  exact h1.trans h2.symm

/-- A decoder stub: every byte payload decodes to a 2×1 fully opaque sprite. -/
def flatDecode : List Nat → Sprite :=
  fun _ => ⟨2, 1, fun _ _ => ⟨1, 0, 0, 1⟩⟩

/-- A resampling stub producing the same fully opaque pixel. -/
def flatResample : Sprite → Nat → Nat → Nat → Nat → RGBA :=
  fun _ _ _ _ _ => ⟨1, 0, 0, 1⟩

/-- A background sprite for the compositing witness. -/
def bgSprite : Sprite :=
  ⟨4, 4, fun _ _ => ⟨0, 0, 1, 1⟩⟩

/-- First witness character: z = 0. -/
def charA : Character :=
  ⟨("A"), [], 0, 1, 1, false, [], 0⟩

/-- Second witness character: z = 1, covering pixel (0, 0) opaquely. -/
def charB : Character :=
  ⟨("B"), [], 1, 1, 1, false, [], 1⟩

/-- C6 witness: with two characters at z-orders 0 and 1, the later-drawn
`charB` covers pixel (0, 0) with full alpha, so the composite there equals
compositing only from `charB` on, ignoring the background and `charA`. -/
theorem composite_zorder_witness :
    composite flatDecode flatResample bgSprite [charA, charB] 0 0
      = ([charB].foldl (pasteChar flatDecode flatResample) blank) 0 0 := by
  have hsplit : sortByZ [charA, charB] = [charA] ++ charB :: [] := rfl
  have hw : (Character.as_image flatDecode flatResample charB).width = 2 := by
    show max 1 (pyTrunc (((2 : Nat) : ℚ) * (1 : ℚ))).toNat = 2
    unfold pyTrunc
    rw [if_pos (by norm_num)]
    norm_num
    rfl
  have hh : (Character.as_image flatDecode flatResample charB).height = 1 := by
    show max 1 (pyTrunc (((1 : Nat) : ℚ) * (1 : ℚ))).toNat = 1
    unfold pyTrunc
    rw [if_pos (by norm_num)]
    norm_num
  have ho1 : (origin_of (Character.as_image flatDecode flatResample charB)
      charB.x charB.y).1 = 0 := by
    show pyTrunc (((1 : Int) : ℚ)
        - (((Character.as_image flatDecode flatResample charB).width) : ℚ) / 2) = 0
    rw [hw]
    unfold pyTrunc
    rw [if_pos (by norm_num)]
    norm_num
  have ho2 : (origin_of (Character.as_image flatDecode flatResample charB)
      charB.x charB.y).2 = 0 := by
    show (1 : Int)
        - (((Character.as_image flatDecode flatResample charB).height) : Int) = 0
    rw [hh]
    norm_num
  have hcov : coversAt flatDecode flatResample charB 0 0 := by
    refine ⟨⟨?_, ?_, ?_, ?_⟩, ?_⟩
    · rw [ho1]
    · rw [ho1, hw]
      norm_num
    · rw [ho2]
    · rw [ho2, hh]
      norm_num
    · exact rfl
  exact (composite_zorder flatDecode flatResample bgSprite [charA, charB]).2.2.2
    [charA] charB [] 0 0 hsplit hcov

/-! ### C10: compositing and export read but never modify scene state -/

/-- The per-session scene state: the prompt, the canvas size, and the mutable
character list of `st.session_state.characters`. -/
structure SceneState where
  prompt : String
  canvas_w : Int
  canvas_h : Int
  characters : List Character
deriving DecidableEq

/-- The preview pass with the session state threaded through explicitly: each
loop iteration reads the character to paste it and passes the state on
(the loop body of `app.py` assigns only to the local `composite`). -/
def renderPass (decode : List Nat → Sprite)
    (resample : Sprite → Nat → Nat → Nat → Nat → RGBA)
    (bg : Sprite) (st : SceneState) : Canvas × SceneState :=
  (sortByZ st.characters).foldl
    (fun acc ch => (pasteChar decode resample acc.1 ch, acc.2))
    (alpha_composite_at blank bg 0 0, st)

/-- The `scene_dict` JSON export: prompt, canvas size, and each character's
name/x/y/scale/flip/z/actions read off in list order. -/
def scene_json (st : SceneState) :
    String × (Int × Int) × List (String × Int × Int × ℚ × Bool × Int × List String) :=
  (st.prompt, (st.canvas_w, st.canvas_h),
    st.characters.map (fun ch => (ch.name, ch.x, ch.y, ch.scale, ch.flip_h, ch.z, ch.actions)))

/-- A fold whose step leaves the second component untouched returns it as is. -/
theorem foldl_keep_snd (f : Canvas → Character → Canvas) (L : List Character)
    (b : Canvas) (s : SceneState) :
    L.foldl (fun (acc : Canvas × SceneState) ch => (f acc.1 ch, acc.2)) (b, s)
      = (L.foldl f b, s) := by
  induction L generalizing b with
  | nil => rfl
  | cons ch t ih => exact ih (f b ch)

/-- C10. Building the preview composite and serializing the scene read the
state but never modify it: the state after the render pass is the input
state (so every character keeps every field), the produced canvas is
exactly the pure composite of the character list, and the JSON export of
the state is unchanged by rendering. -/
theorem render_preserves_state (decode : List Nat → Sprite)
    (resample : Sprite → Nat → Nat → Nat → Nat → RGBA)
    (bg : Sprite) (st : SceneState) :
    (renderPass decode resample bg st).2 = st ∧
    (renderPass decode resample bg st).2.characters = st.characters ∧
    (renderPass decode resample bg st).1 = composite decode resample bg st.characters ∧
    scene_json (renderPass decode resample bg st).2 = scene_json st := by
  have h : renderPass decode resample bg st
      = (composite decode resample bg st.characters, st) := by
    unfold renderPass composite
    exact foldl_keep_snd _ _ _ _
  rw [h]
  exact ⟨rfl, rfl, rfl, rfl⟩

/-! ### C8: PDF generation failure degrades to "no PDF", PNG/JSON unaffected -/

/-- `build_pdf_doc` from `app.py`: the whole PDF construction sits inside
`try: ... except Exception: return None`.  The body (reportlab calls and
image embedding) is external; its outcome is the `attempt` oracle: `ok`
with the produced bytes, or `error` when any exception is raised. -/
def build_pdf_doc (attempt : Except String (List Nat)) : Option (List Nat) :=
  match attempt with
  | Except.ok bytes => some bytes
  | Except.error _ => none

/-- The three download payloads of the export row: PNG bytes, the JSON scene
text, and the optional PDF. -/
def exportOutputs (png : List Nat) (json : String)
    (attempt : Except String (List Nat)) :
    List Nat × String × Option (List Nat) :=
  (png, json, build_pdf_doc attempt)

/-- C8. `build_pdf_doc` never propagates an exception: it is a total function
into `Option`, any raising execution of the body yields `none` (the "no PDF
available" outcome), and the PNG and JSON export payloads are identical
whatever the PDF attempt does. -/
theorem build_pdf_doc_catches (png : List Nat) (json : String)
    (attempt : Except String (List Nat)) :
    (∀ e, attempt = Except.error e → build_pdf_doc attempt = none) ∧
    (∀ bytes, attempt = Except.ok bytes → build_pdf_doc attempt = some bytes) ∧
    (∀ attempt2,
        (exportOutputs png json attempt).1 = (exportOutputs png json attempt2).1 ∧
        (exportOutputs png json attempt).2.1 = (exportOutputs png json attempt2).2.1) := by
  refine ⟨?_, ?_, ?_⟩
  · intro e he
    rw [he]
    rfl
  · intro bytes hb
    rw [hb]
    rfl
  · intro attempt2
    exact ⟨rfl, rfl⟩

/-- C8 witness: a failing PDF build yields `none` while the PNG and JSON
payloads equal those of a successful build. -/
theorem build_pdf_doc_catches_witness :
    build_pdf_doc (Except.error ("reportlab unavailable")) = none ∧
    (exportOutputs [1, 2] ("scene") (Except.error ("boom"))).1
      = (exportOutputs [1, 2] ("scene") (Except.ok [7])).1 ∧
    (exportOutputs [1, 2] ("scene") (Except.error ("boom"))).2.1
      = (exportOutputs [1, 2] ("scene") (Except.ok [7])).2.1 := by
  refine ⟨?_, ?_, ?_⟩
  · exact (build_pdf_doc_catches [] ("") (Except.error ("reportlab unavailable"))).1
      ("reportlab unavailable") rfl
  · exact ((build_pdf_doc_catches [1, 2] ("scene") (Except.error ("boom"))).2.2
      (Except.ok [7])).1
  · exact ((build_pdf_doc_catches [1, 2] ("scene") (Except.error ("boom"))).2.2
      (Except.ok [7])).2

end SceneGen
